import Mathlib

/-!
Verification of the California Urban Opportunity Index (UOI) scoring pipeline
as implemented in `app_ca.py` and `src/cali.py`.

The embedding models, columnwise and rowwise:
  * pandas `Series.mean()` (sum / count over the present values) and
    `Series.std()` (default `ddof=1`, i.e. denominator `count - 1`);
  * the Z-score loop (`df[zcol] = ± (df[col] - mean) / std`), including the
    pandas not-a-number semantics: a missing cell stays missing and a
    zero-variance column (or a column with fewer than two present values)
    yields a not-a-number standardized cell, modelled as `none`;
  * the composite score `UOI_custom` as the literal 9-term weighted sum of the
    Z columns, where any not-a-number term propagates (`none` absorbs);
  * weight preset vectors and the normalization `w = [wi/total_w for wi in w]`,
    where Python raises `ZeroDivisionError` when `total_w == 0` and the list
    is nonempty;
  * the FIPS identifier handling: name lookup in the GeoJSON features,
    `astype(str)` (which renders Python `None` as the string `"None"`),
    `str.zfill(5)`, and the repair lambda
    `x if x.startswith("06") else "06" + x[-3:]`;
  * the `app_ca.py` final step `df = df[df["fips"] != "06003"]`.

Raw indicator values are modelled as exact rationals; standardized values live
in `ℝ` because the standard deviation is a square root.
-/

namespace UOI

/-! ## Statistics over rational columns (pandas mean / std with ddof = 1) -/

/-- pandas `Series.mean()`: sum divided by count. -/
def popMean (xs : List ℚ) : ℚ := xs.sum / xs.length

/-- Sum of squared deviations from the mean. -/
def sse (xs : List ℚ) : ℚ := (xs.map (fun v => (v - popMean xs) ^ 2)).sum

/-- pandas `Series.var()` / the square of `Series.std()` with the default
`ddof = 1`: denominator `count - 1`, not `count`. -/
def sampleVar (xs : List ℚ) : ℚ := sse xs / ((xs.length : ℚ) - 1)

/-- Population variance (denominator = count); used to state the spec's
"population standard deviation" property. -/
def popVar (xs : List ℚ) : ℚ := sse xs / (xs.length : ℚ)

/-! ## Generic list lemmas -/

theorem sum_map_div {α K : Type} [DivisionRing K] (xs : List α) (f : α → K) (c : K) :
    (xs.map (fun x => f x / c)).sum = (xs.map f).sum / c := by
  induction xs with
  | nil => simp
  | cons y ys ih => simp [ih, add_div]

theorem sum_map_sub_const {K : Type} [Field K] (xs : List K) (m : K) :
    (xs.map (fun x => x - m)).sum = xs.sum - xs.length * m := by
  induction xs with
  | nil => simp
  | cons y ys ih =>
      simp only [List.map_cons, List.sum_cons, ih, List.length_cons]
      push_cast
      ring

theorem sum_map_sq_sub {K : Type} [Field K] (xs : List K) (t : K) :
    (xs.map (fun x => (x - t) ^ 2)).sum
      = (xs.map (fun x => x ^ 2)).sum - 2 * t * xs.sum + xs.length * t ^ 2 := by
  induction xs with
  | nil => simp
  | cons y ys ih =>
      simp only [List.map_cons, List.sum_cons, ih, List.length_cons]
      push_cast
      ring

/-! ## Weight resolution (lines 72–94 of `app_ca.py`, 46–66 of `cali.py`) -/

/-- Preset "Even": `[1/9] * 9`. -/
def wEven : List ℚ := List.replicate 9 (1 / 9)

/-- Preset "Income-heavy". -/
def wIncomeHeavy : List ℚ := [0.4, 0.1, 0.1, 0.1, 0.1, 0.05, 0.05, 0.05, 0.05]

/-- Preset "Education-heavy". -/
def wEducationHeavy : List ℚ := [0.1, 0.4, 0.1, 0.1, 0.1, 0.05, 0.05, 0.05, 0.05]

/-- Preset "Equity-focused". -/
def wEquityFocused : List ℚ := [0.05, 0.05, 0.3, 0.05, 0.1, 0.05, 0.2, 0.1, 0.1]

/-- Preset "Stability-focused". -/
def wStabilityFocused : List ℚ := [0.05, 0.05, 0.05, 0.05, 0.2, 0.05, 0.1, 0.3, 0.15]

/-- The normalization `w = [wi/total_w for wi in w]`. -/
def normalizeWeights (w : List ℚ) : List ℚ := w.map (fun wi => wi / w.sum)

/-- The only failures the source's weight-handling lines can raise: Python
raises `ZeroDivisionError` when a division `wi / total_w` executes with
`total_w == 0`, and `ValueError` when the 9-way destructuring
`w_inc, w_bach, ..., w_gini = w` is fed a list whose length is not 9. -/
inductive WeightFailure : Type
  | zeroDivision : WeightFailure
  | valueError : WeightFailure
deriving DecidableEq

/-- Weight normalization exactly as the source performs it: `total_w = sum(w)`
followed by `w = [wi/total_w for wi in w]`, with no validation whatsoever.
A division only executes when the list is nonempty, so an empty list yields
an empty result instead of an error. -/
def resolveWeights (w : List ℚ) : Except WeightFailure (List ℚ) :=
  if w.sum = 0 ∧ w ≠ [] then Except.error WeightFailure.zeroDivision
  else Except.ok (normalizeWeights w)

/-- Weight normalization followed by the 9-way destructuring
`w_inc, w_bach, w_unemp, w_health, w_rent, w_bb, w_school, w_mob, w_gini = w`
on the next source line, which raises `ValueError` unless the (normalized)
list has exactly 9 elements. -/
def resolveWeightsUnpacked (w : List ℚ) : Except WeightFailure (List ℚ) :=
  match resolveWeights w with
  | Except.error e => Except.error e
  | Except.ok w9 =>
      if w9.length = 9 then Except.ok w9 else Except.error WeightFailure.valueError

/-! ## FIPS identifier normalization (lines 45–61 of `app_ca.py`,
lines 28–38 of `cali.py`) -/

/-- One GeoJSON boundary feature: `properties.NAME`, `properties.STATEFP`,
`properties.COUNTYFP`. -/
structure Feature : Type where
  name : String
  statefp : String
  countyfp : String
deriving DecidableEq

/-- Python `str.zfill(n)` on sign-free strings: left-pad with `'0'` up to
length `n` (characterwise, over the underlying character list). -/
def zfill (n : Nat) (s : String) : String :=
  if n ≤ s.data.length then s
  else String.mk (List.replicate (n - s.data.length) '0' ++ s.data)

/-- Python `x[-n:]`: the last `n` characters (the whole string when it is
shorter than `n`). -/
def pyLast (n : Nat) (s : String) : String :=
  String.mk (s.data.drop (s.data.length - n))

/-- Python `x.startswith("06")`, characterwise. -/
def starts06 (s : String) : Bool := s.data.take 2 == ['0', '6']

/-- The repair lambda `x if x.startswith("06") else "06" + x[-3:]`. -/
def repairFips (x : String) : String :=
  if starts06 x then x else "06" ++ pyLast 3 x

/-- pandas `astype(str)` on an object column holding `None`: Python renders
`None` as the string `"None"`. -/
def pyStr : Option String → String
  | none => "None"
  | some s => s

/-- The `fips_lookup` function: strip and uppercase the county name, scan the
features in order, return `STATEFP + COUNTYFP` of the first feature whose
uppercased `NAME` matches, else `None`. -/
def fipsLookup (features : List Feature) (countyName : String) : Option String :=
  (features.find? (fun f => f.name.toUpper == countyName.trim.toUpper)).map
    (fun f => f.statefp ++ f.countyfp)

/-- The full name-based fips assignment for one record:
`apply(fips_lookup)` then `astype(str).str.zfill(5)` then the repair lambda. -/
def resolveFipsByName (features : List Feature) (countyName : String) : String :=
  repairFips (zfill 5 (pyStr (fipsLookup features countyName)))

/-- The explicit-identifier branch (`GEOID`/`fips` column present):
`astype(str).str.zfill(5)` then the repair lambda. -/
def normalizeExplicitId (s : String) : String := repairFips (zfill 5 s)

/-- Modelled from the spec (section 4.1): when the padded identifier does not
start with the jurisdiction prefix, "replace its leading 2 characters with
that prefix while preserving the trailing 3 characters". Stated to be
compared with `normalizeExplicitId`, which is taken from the source. -/
def specNormalizeId (s : String) : String :=
  let p := zfill 5 s
  if starts06 p then p else "06" ++ String.mk (p.data.drop 2)

/-! ## Standardization (lines 104–117 of `app_ca.py`, 82–112 of `cali.py`) -/

noncomputable section

/-- The standard deviation pandas uses: square root of the ddof-1 variance. -/
def sampleStd (xs : List ℚ) : ℝ := Real.sqrt ((sampleVar xs : ℚ) : ℝ)

/-- One cell of `(df[col] - df[col].mean()) / df[col].std()` for a fully
present column. -/
def zcell (col : List ℚ) (v : ℚ) : ℝ :=
  ((v : ℝ) - ((popMean col : ℚ) : ℝ)) / sampleStd col

/-- One standardized cell with the pandas not-a-number semantics: a missing
cell stays missing; when the present values have zero ddof-1 variance (this
includes columns with fewer than two present values, where pandas `std()` is
itself not-a-number) the division is `0/0` and the cell is not-a-number,
modelled as `none`. `mean()` and `std()` skip missing cells. -/
def zcellOpt (col : List (Option ℚ)) (v : Option ℚ) : Option ℝ :=
  match v with
  | none => none
  | some x =>
      if sampleVar (col.filterMap id) = 0 then none
      else some (zcell (col.filterMap id) x)

end

/-- Indicator order of the source: 0 income, 1 bachelors, 2 unemployment,
3 no-health-insurance, 4 rent, 5 broadband, 6 high-school-grad,
7 upward-mobility, 8 gini. -/
abbrev Ind : Type := Fin 9

/-- The columns the source negates: `Unemployment_Rate`,
`No_Health_Insurance_Pct`, `Median_Gross_Rent`, `Gini_Index`. -/
def negativePolarity (j : Ind) : Bool := j == 2 || j == 3 || j == 4 || j == 8

/-- One input record: county name, fips identifier, and the 9 indicator
cells (a cell may be missing). -/
structure Row : Type where
  county : String
  fips : String
  ind : Ind → Option ℚ

/-- The values of indicator column `j` across the table. -/
def column (tbl : List Row) (j : Ind) : List (Option ℚ) :=
  tbl.map (fun r => r.ind j)

noncomputable section

/-- The standardized (sign-corrected) cell of record `r`, indicator `j`,
within table `tbl`: the Z-score loop negates the whole column for
negative-polarity indicators. -/
def zAt (tbl : List Row) (r : Row) (j : Ind) : Option ℝ :=
  (zcellOpt (column tbl j) (r.ind j)).map
    (fun z => if negativePolarity j then -z else z)

/-- Multiplication of a Z column cell by a weight; not-a-number propagates. -/
def omul (a : Option ℝ) (c : ℝ) : Option ℝ := a.map (fun x => x * c)

/-- Addition of two series cells; not-a-number propagates (pandas `+`). -/
def oadd : Option ℝ → Option ℝ → Option ℝ
  | some x, some y => some (x + y)
  | _, _ => none

/-- The composite score `UOI_custom`: the literal 9-term weighted sum of the
Z columns, with the weights destructured positionally from the normalized
weight list. -/
def uoi (zs : Ind → Option ℝ) (w : List ℚ) : Option ℝ :=
  oadd (oadd (oadd (oadd (oadd (oadd (oadd (oadd
    (omul (zs 0) ((w.getD 0 0 : ℚ) : ℝ))
    (omul (zs 1) ((w.getD 1 0 : ℚ) : ℝ)))
    (omul (zs 2) ((w.getD 2 0 : ℚ) : ℝ)))
    (omul (zs 3) ((w.getD 3 0 : ℚ) : ℝ)))
    (omul (zs 4) ((w.getD 4 0 : ℚ) : ℝ)))
    (omul (zs 5) ((w.getD 5 0 : ℚ) : ℝ)))
    (omul (zs 6) ((w.getD 6 0 : ℚ) : ℝ)))
    (omul (zs 7) ((w.getD 7 0 : ℚ) : ℝ)))
    (omul (zs 8) ((w.getD 8 0 : ℚ) : ℝ))

/-- A scored record: the input row's identity columns, its standardized
values, and its composite score. -/
structure ScoredRow : Type where
  county : String
  fips : String
  z : Ind → Option ℝ
  uoiVal : Option ℝ

/-- Standardization plus composite scoring over the whole table (the Z-score
loop followed by the `UOI_custom` assignment). The Z columns are computed
from the full table and do not read the weights. -/
def scoreTable (w : List ℚ) (tbl : List Row) : List ScoredRow :=
  tbl.map (fun r =>
    ScoredRow.mk r.county r.fips (fun j => zAt tbl r j) (uoi (fun j => zAt tbl r j) w))

/-- The `app_ca.py` pipeline tail: score everything, then
`df = df[df["fips"] != "06003"]` (Alpine County removed only after the Z
columns and `UOI_custom` are computed over the full table). -/
def appPipeline (w : List ℚ) (tbl : List Row) : List ScoredRow :=
  (scoreTable w tbl).filter (fun s => s.fips != "06003")

end

/-- A raw record before identifier assignment: only a county name and the
indicator cells. -/
structure RawRow : Type where
  county : String
  ind : Ind → Option ℚ

/-- The name-lookup branch applied to a whole table. -/
def assignFips (features : List Feature) (tbl : List RawRow) : List Row :=
  tbl.map (fun r => Row.mk r.county (resolveFipsByName features r.county) r.ind)

/-- End-to-end `app_ca.py` pipeline when the table has no explicit identifier
column: name lookup, identifier repair, scoring, Alpine filter. -/
noncomputable def appPipelineFromNames (features : List Feature) (w : List ℚ)
    (tbl : List RawRow) : List ScoredRow :=
  appPipeline w (assignFips features tbl)

/-! ## Real-valued statistics, used to state the spec's testable properties
about standardized values (which live in `ℝ`) -/

noncomputable section

/-- Population mean of a real list. -/
def popMeanR (xs : List ℝ) : ℝ := xs.sum / xs.length

/-- Sum of squared deviations of a real list. -/
def sseR (xs : List ℝ) : ℝ := (xs.map (fun v => (v - popMeanR xs) ^ 2)).sum

/-- Population variance (denominator = count) of a real list. -/
def popVarR (xs : List ℝ) : ℝ := sseR xs / (xs.length : ℝ)

/-- Sample variance (denominator = count - 1) of a real list. -/
def sampleVarR (xs : List ℝ) : ℝ := sseR xs / ((xs.length : ℝ) - 1)

/-- Population standard deviation of a real list. -/
def popStdR (xs : List ℝ) : ℝ := Real.sqrt (popVarR xs)

/-- Sample standard deviation of a real list. -/
def sampleStdR (xs : List ℝ) : ℝ := Real.sqrt (sampleVarR xs)

/-- The Z-score loop body on a fully present column: the standardized column,
negated when the indicator has negative polarity
(`df[zcol] = -((df[col] - df[col].mean()) / df[col].std())`). -/
def zColumn (neg : Bool) (col : List ℚ) : List ℝ :=
  col.map (fun v => if neg then -(zcell col v) else zcell col v)

end

/-! ## Helper lemmas -/

theorem oadd_none_right (a : Option ℝ) : oadd a none = none := by
  cases a <;> rfl

theorem oadd_none_left (a : Option ℝ) : oadd none a = none := rfl

theorem omul_none (c : ℝ) : omul none c = none := rfl

theorem getD_map_append {α β : Type} [Inhabited β] (f : α → β)
    (before : List α) (x : α) (after : List α) (d : β) :
    ((before ++ x :: after).map f).getD before.length d = f x := by
  induction before with
  | nil => rfl
  | cons y ys ih => simpa using ih

/-- An empty or single-element column has zero ddof-1 variance (pandas
would report not-a-number for `std()`; in the exact model the guard
`sampleVar = 0` covers it). -/
theorem two_le_length_of_sampleVar_ne_zero (xs : List ℚ) (h : sampleVar xs ≠ 0) :
    2 ≤ xs.length := by
  match xs with
  | [] => exact absurd (by norm_num [sampleVar, sse, popMean]) h
  | [x] => exact absurd (by simp [sampleVar, sse, popMean]) h
  | x :: y :: t => simp only [List.length_cons]; omega

theorem sse_nonneg (xs : List ℚ) : 0 ≤ sse xs := by
  apply List.sum_nonneg
  intro a ha
  obtain ⟨v, _, rfl⟩ := List.mem_map.mp ha
  positivity

theorem sampleVar_pos (xs : List ℚ) (h : sampleVar xs ≠ 0) : 0 < sampleVar xs := by
  rcases lt_or_eq_of_le (sse_nonneg xs) with hs | hs
  · have hn := two_le_length_of_sampleVar_ne_zero xs h
    have hd : (0 : ℚ) < (xs.length : ℚ) - 1 := by
      have : (2 : ℚ) ≤ (xs.length : ℚ) := by exact_mod_cast hn
      linarith
    exact div_pos hs hd
  · exact absurd (by rw [sampleVar, ← hs, zero_div]) h

theorem sampleStd_pos (xs : List ℚ) (h : sampleVar xs ≠ 0) : 0 < sampleStd xs := by
  rw [sampleStd]
  apply Real.sqrt_pos.mpr
  exact_mod_cast sampleVar_pos xs h

theorem normalizeWeights_sum (w : List ℚ) (hw : w.sum ≠ 0) :
    (normalizeWeights w).sum = 1 := by
  have h := sum_map_div w id w.sum
  simp only [id_eq, List.map_id] at h
  rw [normalizeWeights, h, div_self hw]

theorem zfill_data_length (n : Nat) (s : String) (h : s.data.length ≤ n) :
    (zfill n s).data.length = n := by
  rw [zfill]
  by_cases hn : n ≤ s.data.length
  · rw [if_pos hn]; omega
  · rw [if_neg hn]
    show (List.replicate (n - s.data.length) '0' ++ s.data).length = n
    rw [List.length_append, List.length_replicate]
    omega

theorem sampleVar_pair (p q : ℚ) : sampleVar [p, q] = (q - p) ^ 2 / 2 := by
  rw [sampleVar, sse, popMean]
  field_simp
  ring

theorem sampleVar_pair_ne_zero (p q : ℚ) (h : p ≠ q) : sampleVar [p, q] ≠ 0 := by
  rw [sampleVar_pair]
  intro hc
  apply h
  have h2 : (q - p) ^ 2 = 0 := by linarith [pow_two_nonneg (q - p)]
  have := pow_eq_zero_iff (n := 2) (by norm_num) |>.mp h2
  linarith

theorem zcellOpt_pair (p q v : ℚ) (h : p ≠ q) :
    zcellOpt [some p, some q] (some v) = some (zcell [p, q] v) := by
  rw [zcellOpt]
  simp only [List.filterMap_cons, List.filterMap_nil, id]
  rw [if_neg (sampleVar_pair_ne_zero p q h)]

theorem zcell_pair_lt (p q : ℚ) (h : p < q) : zcell [p, q] p < zcell [p, q] q := by
  have hs := sampleStd_pos [p, q] (sampleVar_pair_ne_zero p q h.ne)
  rw [zcell, zcell, div_lt_div_iff₀ hs hs]
  have hpq : ((p : ℝ)) < (q : ℝ) := by exact_mod_cast h
  nlinarith [hs]

theorem sum_map_cast_sub_div (xs : List ℚ) (m : ℚ) (s : ℝ) :
    (xs.map (fun v : ℚ => ((v : ℝ) - (m : ℝ)) / s)).sum
      = (((xs.map (fun v => v - m)).sum : ℚ) : ℝ) / s := by
  induction xs with
  | nil => simp
  | cons y ys ih =>
      simp only [List.map_cons, List.sum_cons, ih]
      push_cast
      ring

theorem sum_map_cast_sub_div_sq (xs : List ℚ) (m : ℚ) (s : ℝ) :
    (xs.map (fun v : ℚ => (((v : ℝ) - (m : ℝ)) / s) ^ 2)).sum
      = (((xs.map (fun v => (v - m) ^ 2)).sum : ℚ) : ℝ) / s ^ 2 := by
  induction xs with
  | nil => simp
  | cons y ys ih =>
      simp only [List.map_cons, List.sum_cons, ih]
      push_cast
      ring

/-- Core standardization fact: a column standardized with the ddof-1 standard
deviation has population mean 0 and ddof-1 (sample) variance 1. -/
theorem zlist_meanvar (xs : List ℚ) (h : sampleVar xs ≠ 0) :
    popMeanR (xs.map (fun v => zcell xs v)) = 0
    ∧ sampleVarR (xs.map (fun v => zcell xs v)) = 1 := by
  have hn2 : 2 ≤ xs.length := two_le_length_of_sampleVar_ne_zero xs h
  have hnQ : ((xs.length : ℚ)) ≠ 0 := by
    have : (2 : ℚ) ≤ (xs.length : ℚ) := by exact_mod_cast hn2
    linarith
  have hsse : sse xs ≠ 0 := by
    intro h0
    exact h (by rw [sampleVar, h0, zero_div])
  have hVpos := sampleVar_pos xs h
  have hspos := sampleStd_pos xs h
  have hs2 : sampleStd xs ^ 2 = ((sampleVar xs : ℚ) : ℝ) := by
    rw [sampleStd]
    exact Real.sq_sqrt (by exact_mod_cast hVpos.le)
  have hsub : (xs.map (fun v => v - popMean xs)).sum = 0 := by
    rw [sum_map_sub_const, popMean]
    field_simp
  have hsum : (xs.map (fun v => zcell xs v)).sum = 0 := by
    simp only [zcell]
    rw [sum_map_cast_sub_div, hsub]
    simp
  have hm0 : popMeanR (xs.map (fun v => zcell xs v)) = 0 := by
    rw [popMeanR, hsum, zero_div]
  refine ⟨hm0, ?_⟩
  rw [sampleVarR, sseR, hm0]
  simp only [sub_zero, List.map_map, List.length_map, Function.comp_def]
  have hsq : (xs.map (fun v => (zcell xs v) ^ 2)).sum
      = ((sse xs : ℚ) : ℝ) / sampleStd xs ^ 2 := by
    simp only [zcell]
    rw [sum_map_cast_sub_div_sq]
    rfl
  rw [hsq, hs2]
  have hVcast : ((sampleVar xs : ℚ) : ℝ)
      = ((sse xs : ℚ) : ℝ) / (((xs.length : ℚ) : ℝ) - 1) := by
    rw [sampleVar]
    push_cast
    ring
  rw [hVcast]
  have hsseR : ((sse xs : ℚ) : ℝ) ≠ 0 := by exact_mod_cast hsse
  have hd : (((xs.length : ℚ) : ℝ) - 1) ≠ 0 := by
    have : (2 : ℝ) ≤ ((xs.length : ℚ) : ℝ) := by exact_mod_cast hn2
    linarith
  push_cast at hd ⊢
  field_simp

theorem sum_map_neg (l : List ℝ) : (l.map (fun v => -v)).sum = -l.sum := by
  induction l with
  | nil => simp
  | cons y t ih => simp [ih]; ring

theorem popMeanR_neg (l : List ℝ) : popMeanR (l.map (fun v => -v)) = -(popMeanR l) := by
  rw [popMeanR, popMeanR, sum_map_neg, List.length_map, neg_div]

theorem sampleVarR_neg (l : List ℝ) : sampleVarR (l.map (fun v => -v)) = sampleVarR l := by
  rw [sampleVarR, sampleVarR, sseR, sseR, popMeanR_neg, List.length_map, List.map_map]
  congr 1
  apply congrArg
  apply List.map_congr_left
  intro a _
  simp only [Function.comp_apply]
  ring

/-! ## Claims -/

/-- Claim C1, counterexample: the code standardizes with pandas `std()`
(denominator = count - 1), not the population standard deviation, so for the
present two-value column `[0, 2]` (which has nonzero variance) the
standardized values have population standard deviation `sqrt (1/2)`, not 1. -/
theorem c1_counterexample :
    sampleVar [0, 2] ≠ 0 ∧ popStdR (zColumn false [0, 2]) ≠ 1 := by
  constructor
  · norm_num [sampleVar, sse, popMean]
  · have h2 : sampleVar [0, 2] = 2 := by norm_num [sampleVar, sse, popMean]
    have hm : popMean [0, 2] = 1 := by norm_num [popMean]
    have hs : sampleStd [0, 2] = Real.sqrt 2 := by
      rw [sampleStd, h2]
      norm_num
    have hsqrt2 : Real.sqrt 2 ^ 2 = 2 := Real.sq_sqrt (by norm_num)
    have ha : zcell [0, 2] 0 = -(1 / Real.sqrt 2) := by
      rw [zcell, hm, hs]
      push_cast
      ring
    have hb : zcell [0, 2] 2 = 1 / Real.sqrt 2 := by
      rw [zcell, hm, hs]
      push_cast
      ring
    have hcol : zColumn false [0, 2] = [-(1 / Real.sqrt 2), 1 / Real.sqrt 2] := by
      simp [zColumn, ha, hb]
    rw [hcol]
    have hmean : popMeanR [-(1 / Real.sqrt 2), 1 / Real.sqrt 2] = 0 := by
      rw [popMeanR]
      simp
    have hvar : popVarR [-(1 / Real.sqrt 2), 1 / Real.sqrt 2] = 1 / 2 := by
      rw [popVarR, sseR, hmean]
      simp only [sub_zero, List.map_cons, List.map_nil, List.sum_cons, List.sum_nil,
        List.length_cons, List.length_nil]
      rw [neg_pow, div_pow, one_pow, hsqrt2]
      norm_num
    rw [popStdR, hvar]
    intro hcontra
    have hsq := Real.sq_sqrt (show (0:ℝ) ≤ 1/2 by norm_num)
    rw [hcontra] at hsq
    norm_num at hsq

/-- Claim C1, amended: standardize computes the z-score using the population
mean and the SAMPLE standard deviation (denominator = count - 1, pandas
`std()` default), and consequently, for every indicator column with nonzero
variance (under either polarity sign), the standardized values have
population mean 0 and sample standard deviation 1. -/
theorem c1_amended_sample_standardization (neg : Bool) (xs : List ℚ)
    (h : sampleVar xs ≠ 0) :
    popMeanR (zColumn neg xs) = 0 ∧ sampleStdR (zColumn neg xs) = 1 := by
  obtain ⟨hm, hv⟩ := zlist_meanvar xs h
  cases neg with
  | false =>
      have he : zColumn false xs = xs.map (fun v => zcell xs v) := by simp [zColumn]
      rw [he]
      exact ⟨hm, by rw [sampleStdR, hv, Real.sqrt_one]⟩
  | true =>
      have he : zColumn true xs = (xs.map (fun v => zcell xs v)).map (fun v => -v) := by
        simp [zColumn, List.map_map, Function.comp_def]
      rw [he]
      constructor
      · rw [popMeanR_neg, hm, neg_zero]
      · rw [sampleStdR, sampleVarR_neg, hv, Real.sqrt_one]

/-- Claim C1 witness: the amended statement evaluated on the column
`[0, 1, 2]`. -/
theorem c1_amended_sample_standardization_witness :
    sampleVar [0, 1, 2] ≠ 0
    ∧ (popMeanR (zColumn false [0, 1, 2]) = 0
        ∧ sampleStdR (zColumn false [0, 1, 2]) = 1) :=
  ⟨by norm_num [sampleVar, sse, popMean],
    c1_amended_sample_standardization false [0, 1, 2]
      (by norm_num [sampleVar, sse, popMean])⟩

/-- Claim C3, counterexample: the source performs no weight validation and
has no `InvalidWeightsError`. A 9-entry weight list with a negative entry
(and positive sum) is normalized, unpacked and scored without any rejection;
a 10-entry list does fail, but only at the 9-way destructuring after
normalization (a `ValueError`), not with `InvalidWeightsError` and not
before computing anything. -/
theorem c3_counterexample :
    resolveWeightsUnpacked [-1, 2, 0, 0, 0, 0, 0, 0, 0]
        = Except.ok [-1, 2, 0, 0, 0, 0, 0, 0, 0]
    ∧ resolveWeightsUnpacked [1, 1, 1, 1, 1, 1, 1, 1, 1, 1]
        = Except.error WeightFailure.valueError := by
  have h1 : resolveWeights [-1, 2, 0, 0, 0, 0, 0, 0, 0]
      = Except.ok [-1, 2, 0, 0, 0, 0, 0, 0, 0] := by
    rw [resolveWeights, if_neg]
    · norm_num [normalizeWeights]
    · norm_num
  have h2 : resolveWeights [1, 1, 1, 1, 1, 1, 1, 1, 1, 1]
      = Except.ok (List.replicate 10 (1 / 10)) := by
    rw [resolveWeights, if_neg]
    · norm_num [normalizeWeights, List.replicate]
    · norm_num
  constructor
  · simp only [resolveWeightsUnpacked, h1]
    rfl
  · simp only [resolveWeightsUnpacked, h2]
    rfl

/-- Claim C3, amended: the code never validates weights. A nonzero-sum list
of exactly 9 entries — negative entries included — is normalized and scoring
proceeds; weights summing to exactly 0 raise a Python `ZeroDivisionError`
during normalization; a nonzero-sum list whose count is not 9 is normalized
but then the 9-way destructuring raises `ValueError`, so no composite score
is produced for it (though not via any `InvalidWeightsError` and not before
normalization runs). -/
theorem c3_amended_no_validation (w : List ℚ) (hw : w ≠ []) :
    (resolveWeightsUnpacked w = Except.error WeightFailure.zeroDivision ↔ w.sum = 0)
    ∧ (w.sum ≠ 0 → w.length = 9 →
        resolveWeightsUnpacked w = Except.ok (normalizeWeights w))
    ∧ (w.sum ≠ 0 → w.length ≠ 9 →
        resolveWeightsUnpacked w = Except.error WeightFailure.valueError) := by
  have hlen : (normalizeWeights w).length = w.length := by
    rw [normalizeWeights, List.length_map]
  by_cases hs : w.sum = 0
  · have hres : resolveWeights w = Except.error WeightFailure.zeroDivision := by
      rw [resolveWeights, if_pos ⟨hs, hw⟩]
    refine ⟨⟨fun _ => hs, fun _ => ?_⟩, fun hs' _ => absurd hs hs',
      fun hs' _ => absurd hs hs'⟩
    simp only [resolveWeightsUnpacked, hres]
  · have hres : resolveWeights w = Except.ok (normalizeWeights w) := by
      rw [resolveWeights, if_neg (by tauto)]
    refine ⟨⟨fun h => ?_, fun hs' => absurd hs' hs⟩, fun _ hl => ?_, fun _ hl => ?_⟩
    · simp only [resolveWeightsUnpacked, hres] at h
      by_cases hl : (normalizeWeights w).length = 9
      · rw [if_pos hl] at h
        simp at h
      · rw [if_neg hl] at h
        simp at h
    · simp only [resolveWeightsUnpacked, hres]
      rw [if_pos (by rw [hlen]; exact hl)]
    · simp only [resolveWeightsUnpacked, hres]
      rw [if_neg (by rw [hlen]; exact hl)]

/-- Claim C3 witness: the amended statement evaluated on a 9-entry weight
list with a negative entry and positive sum, which the code normalizes and
scores. -/
theorem c3_amended_no_validation_witness :
    ([-1, 2, 0, 0, 0, 0, 0, 0, 0] : List ℚ) ≠ []
    ∧ (([-1, 2, 0, 0, 0, 0, 0, 0, 0] : List ℚ).sum ≠ 0 →
        ([-1, 2, 0, 0, 0, 0, 0, 0, 0] : List ℚ).length = 9 →
        resolveWeightsUnpacked [-1, 2, 0, 0, 0, 0, 0, 0, 0]
          = Except.ok (normalizeWeights [-1, 2, 0, 0, 0, 0, 0, 0, 0])) :=
  ⟨by simp, (c3_amended_no_validation [-1, 2, 0, 0, 0, 0, 0, 0, 0] (by simp)).2.1⟩

/-- Claim C5: every preset's normalized weight vector sums to exactly 1, and
every custom weight list with positive sum normalizes to a vector whose sum
is within 1e-9 of 1 (again exactly 1 in exact arithmetic). -/
theorem c5_normalized_weights_sum_to_one :
    (∀ w : List ℚ, 0 < w.sum → |(normalizeWeights w).sum - 1| ≤ 1 / 1000000000)
    ∧ (normalizeWeights wEven).sum = 1
    ∧ (normalizeWeights wIncomeHeavy).sum = 1
    ∧ (normalizeWeights wEducationHeavy).sum = 1
    ∧ (normalizeWeights wEquityFocused).sum = 1
    ∧ (normalizeWeights wStabilityFocused).sum = 1 := by
  refine ⟨fun w hw => ?_, ?_, ?_, ?_, ?_, ?_⟩
  · rw [normalizeWeights_sum w (ne_of_gt hw)]
    norm_num
  · rw [normalizeWeights_sum]
    norm_num [wEven, List.sum_replicate]
  · rw [normalizeWeights_sum]
    norm_num [wIncomeHeavy]
  · rw [normalizeWeights_sum]
    norm_num [wEducationHeavy]
  · rw [normalizeWeights_sum]
    norm_num [wEquityFocused]
  · rw [normalizeWeights_sum]
    norm_num [wStabilityFocused]

/-- Claim C5 witness: the custom-weights part evaluated at a concrete list
with positive sum. -/
theorem c5_normalized_weights_sum_to_one_witness :
    (0 : ℚ) < ([1, 2, 3, 4, 5, 6, 7, 8, 9] : List ℚ).sum
    ∧ |(normalizeWeights [1, 2, 3, 4, 5, 6, 7, 8, 9]).sum - 1| ≤ 1 / 1000000000 :=
  ⟨by norm_num, c5_normalized_weights_sum_to_one.1 [1, 2, 3, 4, 5, 6, 7, 8, 9] (by norm_num)⟩

/-- Claim C8: an explicit identifier is left-padded with zeros to 5
characters, and when the padded result does not start with the jurisdiction
prefix "06" the code's `"06" + x[-3:]` agrees with the spec's "replace the
leading 2 characters, preserving the trailing 3"; in particular `"001"`
normalizes to `"06001"`. -/
theorem c8_explicit_identifier_normalization (s : String) (h : s.data.length ≤ 5) :
    normalizeExplicitId s = specNormalizeId s
    ∧ normalizeExplicitId "001" = "06001" := by
  constructor
  · have hlen : (zfill 5 s).data.length = 5 := zfill_data_length 5 s h
    simp only [normalizeExplicitId, specNormalizeId, repairFips, pyLast, hlen]
  · decide

/-- Claim C8 witness: evaluated at the identifier `"001"`. -/
theorem c8_explicit_identifier_normalization_witness :
    ("001" : String).data.length ≤ 5
    ∧ (normalizeExplicitId "001" = specNormalizeId "001"
        ∧ normalizeExplicitId "001" = "06001") :=
  ⟨by decide, c8_explicit_identifier_normalization "001" (by decide)⟩

/-- Claim C4, counterexample: on a two-record table whose names have no match
in the (empty) boundary feature set, no record is excluded — the output still
has 2 records (the claim demands 0) — and the resulting identifiers are the
mangled string "06one" (from `astype(str)` rendering `None` as `"None"`,
then `zfill(5)` and the prefix repair), not null. -/
theorem c4_counterexample :
    ((appPipelineFromNames [] wEven
        [RawRow.mk "Alameda" (fun _ => none), RawRow.mk "Atlantis" (fun _ => none)]).map
      (fun s => s.fips)) = ["06one", "06one"]
    ∧ (appPipelineFromNames [] wEven
        [RawRow.mk "Alameda" (fun _ => none), RawRow.mk "Atlantis" (fun _ => none)]).length
      = 2 := by
  constructor
  · simp [appPipelineFromNames, appPipeline, scoreTable, assignFips, resolveFipsByName,
      fipsLookup, pyStr, repairFips, zfill, pyLast, starts06]
  · simp [appPipelineFromNames, appPipeline, scoreTable, assignFips, resolveFipsByName,
      fipsLookup, pyStr, repairFips, zfill, pyLast, starts06]

/-- Claim C4, amended: a record whose name has no match receives the non-null
identifier "06one" (never null), and the pipeline excludes nothing on account
of failed lookups — the scored output drops exactly the rows whose assigned
identifier is "06003", so unmatched records are silently scored. -/
theorem c4_amended_unmatched_scored :
    (∀ (features : List Feature) (name : String),
        fipsLookup features name = none → resolveFipsByName features name = "06one")
    ∧ (∀ (features : List Feature) (w : List ℚ) (tbl : List RawRow),
        (appPipelineFromNames features w tbl).length
          = ((assignFips features tbl).filter (fun r => r.fips != "06003")).length) := by
  constructor
  · intro features name h
    rw [resolveFipsByName, h]
    decide
  · intro features w tbl
    rw [appPipelineFromNames, appPipeline, scoreTable, List.filter_map, List.length_map]
    rfl

/-- Claim C4 witness: the amended statement evaluated on an empty feature
set, where every lookup misses. -/
theorem c4_amended_unmatched_scored_witness :
    fipsLookup [] "Atlantis" = none
    ∧ resolveFipsByName [] "Atlantis" = "06one" :=
  ⟨rfl, c4_amended_unmatched_scored.1 [] "Atlantis" rfl⟩

/-- Claim C2, counterexample: with a missing standardized value at indicator 1
and every other standardized value present (all equal to 1), the composite is
not-a-number (`none`) under the Even weights — it does not equal the weighted
sum `8/9` over the remaining present indicators. -/
theorem c2_counterexample :
    uoi (fun j : Ind => if j = 1 then none else some 1) wEven = none
    ∧ (none : Option ℝ) ≠ some ((8 : ℝ) / 9) := by
  constructor
  · simp [uoi, oadd, omul]
  · simp

/-- Claim C2, amended: a zero-variance (or missing) standardized cell is
marked not-a-number (`none`), never coerced to 0 — but it does NOT contribute
0 to the composite: pandas arithmetic propagates it, so the record's
composite score is itself not-a-number whenever any of the nine standardized
values is missing. -/
theorem c2_amended_nan_propagates :
    (∀ (col : List (Option ℚ)) (x : ℚ), sampleVar (col.filterMap id) = 0 →
        zcellOpt col (some x) = none)
    ∧ (∀ (zs : Ind → Option ℝ) (w : List ℚ),
        (zs 0 = none ∨ zs 1 = none ∨ zs 2 = none ∨ zs 3 = none ∨ zs 4 = none
          ∨ zs 5 = none ∨ zs 6 = none ∨ zs 7 = none ∨ zs 8 = none) →
        uoi zs w = none) := by
  constructor
  · intro col x h
    simp only [zcellOpt]
    rw [if_pos h]
  · intro zs w h
    rcases h with h | h | h | h | h | h | h | h | h <;>
      (rw [uoi, h]; simp [oadd, omul, oadd_none_left, oadd_none_right, omul_none])

/-- Claim C2 witness: the amended statement evaluated on a constant
(zero-variance) two-cell column and on a record missing indicator 1. -/
theorem c2_amended_nan_propagates_witness :
    (sampleVar (([some 1, some 1] : List (Option ℚ)).filterMap id) = 0
      ∧ zcellOpt [some 1, some 1] (some 1) = none)
    ∧ uoi (fun j : Ind => if j = 1 then none else some (1 : ℝ)) wEven = none := by
  have h : sampleVar (([some 1, some 1] : List (Option ℚ)).filterMap id) = 0 := by
    simp only [List.filterMap_cons, List.filterMap_nil, id]
    norm_num [sampleVar, sse, popMean]
  exact ⟨⟨h, c2_amended_nan_propagates.1 [some 1, some 1] 1 h⟩,
    c2_amended_nan_propagates.2 _ wEven (Or.inr (Or.inl rfl))⟩

/-- Claim C9: the standardized (Z) values produced by the pipeline are a pure
function of the table — two runs with different weight lists produce
identical standardized values for every record and indicator. -/
theorem c9_standardization_independent_of_weights (tbl : List Row) (w1 w2 : List ℚ) :
    (scoreTable w1 tbl).map (fun s => s.z) = (scoreTable w2 tbl).map (fun s => s.z) := by
  simp only [scoreTable, List.map_map]
  rfl

/-- Claim C10: the app_ca pipeline drops the rows with identifier "06003"
(Alpine County) only after standardization and composite scoring over the
FULL table: the output equals the fully scored table filtered by
`fips != "06003"`, no output row carries "06003", and the output count is the
input count minus the number of "06003" rows. -/
theorem c10_alpine_excluded_after_scoring (w : List ℚ) (tbl : List Row) :
    appPipeline w tbl
      = (tbl.map (fun r =>
          ScoredRow.mk r.county r.fips (fun j => zAt tbl r j)
            (uoi (fun j => zAt tbl r j) w))).filter (fun s => s.fips != "06003")
    ∧ (appPipeline w tbl).all (fun s => s.fips != "06003") = true
    ∧ (appPipeline w tbl).length
        + (tbl.filter (fun r => r.fips == "06003")).length = tbl.length := by
  refine ⟨rfl, ?_, ?_⟩
  · rw [List.all_eq_true]
    intro s hs
    rw [appPipeline, List.mem_filter] at hs
    exact hs.2
  · rw [appPipeline, scoreTable, List.filter_map, List.length_map]
    have hsplit := List.length_eq_length_filter_add (l := tbl) (fun r => r.fips == "06003")
    have hrfl : (tbl.filter ((fun s : ScoredRow => s.fips != "06003") ∘ (fun r =>
          ScoredRow.mk r.county r.fips (fun j => zAt tbl r j)
            (uoi (fun j => zAt tbl r j) w))))
        = tbl.filter (fun r => !(r.fips == "06003")) := rfl
    rw [hrfl, hsplit]
    omega

theorem zAt_pair (cA cB fA fB cV fV : String) (A B V : Ind → ℚ)
    (hd : ∀ j, A j ≠ B j) (j : Ind) :
    zAt [Row.mk cA fA (fun k => some (A k)), Row.mk cB fB (fun k => some (B k))]
        (Row.mk cV fV (fun k => some (V k))) j
      = some (if negativePolarity j then -(zcell [A j, B j] (V j))
              else zcell [A j, B j] (V j)) := by
  rw [zAt]
  show (zcellOpt [some (A j), some (B j)] (some (V j))).map _ = _
  rw [zcellOpt_pair _ _ _ (hd j)]
  rfl

theorem uoi_pair_income (cA cB fA fB cV fV : String) (A B V : Ind → ℚ)
    (hd : ∀ j, A j ≠ B j) :
    uoi (fun j => zAt
        [Row.mk cA fA (fun k => some (A k)), Row.mk cB fB (fun k => some (B k))]
        (Row.mk cV fV (fun k => some (V k))) j) [1, 0, 0, 0, 0, 0, 0, 0, 0]
      = some (zcell [A 0, B 0] (V 0)) := by
  rw [uoi]
  simp only [zAt_pair cA cB fA fB cV fV A B V hd]
  simp only [show negativePolarity 0 = false from rfl, show negativePolarity 1 = false from rfl,
    show negativePolarity 2 = true from rfl, show negativePolarity 3 = true from rfl,
    show negativePolarity 4 = true from rfl, show negativePolarity 5 = false from rfl,
    show negativePolarity 6 = false from rfl, show negativePolarity 7 = false from rfl,
    show negativePolarity 8 = true from rfl, if_true, if_false]
  norm_num [omul, oadd]

theorem uoi_pair_unemp (cA cB fA fB cV fV : String) (A B V : Ind → ℚ)
    (hd : ∀ j, A j ≠ B j) :
    uoi (fun j => zAt
        [Row.mk cA fA (fun k => some (A k)), Row.mk cB fB (fun k => some (B k))]
        (Row.mk cV fV (fun k => some (V k))) j) [0, 0, 1, 0, 0, 0, 0, 0, 0]
      = some (-(zcell [A 2, B 2] (V 2))) := by
  rw [uoi]
  simp only [zAt_pair cA cB fA fB cV fV A B V hd]
  simp only [show negativePolarity 0 = false from rfl, show negativePolarity 1 = false from rfl,
    show negativePolarity 2 = true from rfl, show negativePolarity 3 = true from rfl,
    show negativePolarity 4 = true from rfl, show negativePolarity 5 = false from rfl,
    show negativePolarity 6 = false from rfl, show negativePolarity 7 = false from rfl,
    show negativePolarity 8 = true from rfl, if_true, if_false]
  norm_num [omul, oadd]

/-- Claim C6: end-to-end over the two-record set A (income 100, unemployment
5) and B (income 200, unemployment 10) — with all indicator columns
nondegenerate — the income-only weight vector gives B a strictly higher
composite score than A, and the unemployment-only weight vector gives A a
strictly higher composite score than B. -/
theorem c6_end_to_end_income_vs_unemployment (A B : Ind → ℚ) (cA cB fA fB : String)
    (hA0 : A 0 = 100) (hB0 : B 0 = 200) (hA2 : A 2 = 5) (hB2 : B 2 = 10)
    (hd : ∀ j, A j ≠ B j) :
    ∃ a b a2 b2 : ℝ,
      (scoreTable [1, 0, 0, 0, 0, 0, 0, 0, 0]
          [Row.mk cA fA (fun k => some (A k)), Row.mk cB fB (fun k => some (B k))]).map
        (fun s => s.uoiVal) = [some a, some b]
      ∧ a < b
      ∧ (scoreTable [0, 0, 1, 0, 0, 0, 0, 0, 0]
          [Row.mk cA fA (fun k => some (A k)), Row.mk cB fB (fun k => some (B k))]).map
        (fun s => s.uoiVal) = [some a2, some b2]
      ∧ b2 < a2 := by
  refine ⟨zcell [A 0, B 0] (A 0), zcell [A 0, B 0] (B 0),
    -(zcell [A 2, B 2] (A 2)), -(zcell [A 2, B 2] (B 2)), ?_, ?_, ?_, ?_⟩
  · simp only [scoreTable, List.map_cons, List.map_nil]
    rw [uoi_pair_income cA cB fA fB cA fA A B A hd,
      uoi_pair_income cA cB fA fB cB fB A B B hd]
  · rw [hA0, hB0]
    exact zcell_pair_lt 100 200 (by norm_num)
  · simp only [scoreTable, List.map_cons, List.map_nil]
    rw [uoi_pair_unemp cA cB fA fB cA fA A B A hd,
      uoi_pair_unemp cA cB fA fB cB fB A B B hd]
  · rw [hA2, hB2]
    exact neg_lt_neg (zcell_pair_lt 5 10 (by norm_num))

/-- Claim C6 witness: the end-to-end statement evaluated on concrete records
(the remaining seven indicators take values 1 for A and 2 for B). -/
theorem c6_end_to_end_income_vs_unemployment_witness :
    (![100, 1, 5, 1, 1, 1, 1, 1, 1] : Ind → ℚ) 0 = 100
    ∧ (∀ j, (![100, 1, 5, 1, 1, 1, 1, 1, 1] : Ind → ℚ) j
        ≠ (![200, 2, 10, 2, 2, 2, 2, 2, 2] : Ind → ℚ) j)
    ∧ (∃ a b a2 b2 : ℝ,
        (scoreTable [1, 0, 0, 0, 0, 0, 0, 0, 0]
            [Row.mk "A" "06001" (fun k => some ((![100, 1, 5, 1, 1, 1, 1, 1, 1] : Ind → ℚ) k)),
              Row.mk "B" "06037" (fun k => some ((![200, 2, 10, 2, 2, 2, 2, 2, 2] : Ind → ℚ) k))]).map
          (fun s => s.uoiVal) = [some a, some b]
        ∧ a < b
        ∧ (scoreTable [0, 0, 1, 0, 0, 0, 0, 0, 0]
            [Row.mk "A" "06001" (fun k => some ((![100, 1, 5, 1, 1, 1, 1, 1, 1] : Ind → ℚ) k)),
              Row.mk "B" "06037" (fun k => some ((![200, 2, 10, 2, 2, 2, 2, 2, 2] : Ind → ℚ) k))]).map
          (fun s => s.uoiVal) = [some a2, some b2]
        ∧ b2 < a2) :=
  ⟨by decide, by decide,
    c6_end_to_end_income_vs_unemployment
      (![100, 1, 5, 1, 1, 1, 1, 1, 1]) (![200, 2, 10, 2, 2, 2, 2, 2, 2])
      "A" "B" "06001" "06037"
      (by decide) (by decide) (by decide) (by decide) (by decide)⟩

theorem list_sq_sum_le (c : List ℚ) :
    c.sum ^ 2 ≤ (c.length : ℚ) * (c.map (fun y => y ^ 2)).sum := by
  induction c with
  | nil => simp
  | cons y t ih =>
      simp only [List.sum_cons, List.map_cons, List.length_cons]
      push_cast
      have hQ : 0 ≤ (t.map (fun y => y ^ 2)).sum := by
        apply List.sum_nonneg
        intro a ha
        obtain ⟨v, _, rfl⟩ := List.mem_map.mp ha
        positivity
      have hL : (0 : ℚ) ≤ (t.length : ℚ) := by positivity
      have ihh : 0 ≤ (t.length : ℚ) * (t.map (fun y => y ^ 2)).sum - t.sum ^ 2 := by
        linarith [ih]
      rcases Nat.eq_zero_or_pos t.length with h0 | hpos
      · obtain rfl : t = [] := List.length_eq_zero.mp h0
        simp
      · have hLpos : (0 : ℚ) < (t.length : ℚ) := by exact_mod_cast hpos
        have key : (t.length : ℚ) * (((t.length : ℚ) + 1)
              * (y ^ 2 + (t.map (fun y => y ^ 2)).sum) - (y + t.sum) ^ 2)
            = ((t.length : ℚ) * y - t.sum) ^ 2
              + ((t.length : ℚ) + 1)
                * ((t.length : ℚ) * (t.map (fun y => y ^ 2)).sum - t.sum ^ 2) := by
          ring
        nlinarith [key, hLpos, sq_nonneg ((t.length : ℚ) * y - t.sum),
          mul_nonneg (by positivity : (0:ℚ) ≤ (t.length : ℚ) + 1) ihh]

theorem le_of_sq_le_sq' (A B : ℝ) (hB : 0 ≤ B) (h : A ^ 2 ≤ B ^ 2) : A ≤ B := by
  rcases le_or_lt A 0 with hA | hA
  · linarith
  · have hs := Real.sqrt_le_sqrt h
    rwa [Real.sqrt_sq hA.le, Real.sqrt_sq hB] at hs

/-- Monotonicity of `u / sqrt (a + b * u^2)` in `u`, the shape of a record's
own z-score as a function of its own raw value. -/
theorem z_mono_real (a b u v : ℝ) (ha : 0 ≤ a) (hb : 0 < b)
    (h1 : 0 < a + b * u ^ 2) (h2 : 0 < a + b * v ^ 2) (huv : u ≤ v) :
    u / Real.sqrt (a + b * u ^ 2) ≤ v / Real.sqrt (a + b * v ^ 2) := by
  have s1pos : 0 < Real.sqrt (a + b * u ^ 2) := Real.sqrt_pos.mpr h1
  have s2pos : 0 < Real.sqrt (a + b * v ^ 2) := Real.sqrt_pos.mpr h2
  have hs1 : Real.sqrt (a + b * u ^ 2) ^ 2 = a + b * u ^ 2 := Real.sq_sqrt h1.le
  have hs2 : Real.sqrt (a + b * v ^ 2) ^ 2 = a + b * v ^ 2 := Real.sq_sqrt h2.le
  rw [div_le_div_iff₀ s1pos s2pos]
  rcases le_or_lt u 0 with hu | hu
  · rcases le_or_lt 0 v with hv | hv
    · exact le_trans (mul_nonpos_of_nonpos_of_nonneg hu s2pos.le)
        (mul_nonneg hv s1pos.le)
    · have hvv : v ^ 2 ≤ u ^ 2 := by nlinarith
      have hkey : (-(v * Real.sqrt (a + b * u ^ 2))) ^ 2
          ≤ (-(u * Real.sqrt (a + b * v ^ 2))) ^ 2 := by
        simp only [neg_sq, mul_pow]
        rw [hs1, hs2]
        nlinarith [mul_le_mul_of_nonneg_left hvv ha]
      have hBnn : 0 ≤ -(u * Real.sqrt (a + b * v ^ 2)) := by
        rw [neg_nonneg]
        exact mul_nonpos_of_nonpos_of_nonneg hu s2pos.le
      have := le_of_sq_le_sq' _ _ hBnn hkey
      linarith
  · have hvv : u ^ 2 ≤ v ^ 2 := by nlinarith
    have hkey : (u * Real.sqrt (a + b * v ^ 2)) ^ 2
        ≤ (v * Real.sqrt (a + b * u ^ 2)) ^ 2 := by
      simp only [mul_pow]
      rw [hs1, hs2]
      nlinarith [mul_le_mul_of_nonneg_left hvv ha]
    have hBnn : 0 ≤ v * Real.sqrt (a + b * u ^ 2) :=
      mul_nonneg (by linarith) s1pos.le
    exact le_of_sq_le_sq' _ _ hBnn hkey

/-- The column statistics are invariant under moving the record's own value
to the head of the column. -/
theorem stats_rearrange (before after : List ℚ) (x : ℚ) :
    popMean (before ++ x :: after) = popMean (x :: (before ++ after))
    ∧ sampleVar (before ++ x :: after) = sampleVar (x :: (before ++ after)) := by
  have hlen : (before ++ x :: after).length = (x :: (before ++ after)).length := by
    simp
    omega
  have hsum : (before ++ x :: after).sum = (x :: (before ++ after)).sum := by
    simp [List.sum_append]
    ring
  have hm : popMean (before ++ x :: after) = popMean (x :: (before ++ after)) := by
    rw [popMean, popMean, hlen, hsum]
  have hsse : sse (before ++ x :: after) = sse (x :: (before ++ after)) := by
    rw [sse, sse, hm]
    simp [List.map_append, List.sum_append]
    ring
  refine ⟨hm, ?_⟩
  rw [sampleVar, sampleVar, hsse, hlen]

/-- The ddof-1 variance of a column as a function of the head value `x`:
`a + b * u^2` with `u = x - mean`, where `a ≥ 0` and `b > 0` depend only on
the other values. -/
theorem sampleVar_cons_split (c : List ℚ) (x : ℚ) (hc : c ≠ []) :
    sampleVar (x :: c)
      = ((c.map (fun y => y ^ 2)).sum - c.sum ^ 2 / (c.length : ℚ)) / (c.length : ℚ)
        + (((c.length : ℚ) + 1) / (c.length : ℚ) ^ 2) * (x - popMean (x :: c)) ^ 2 := by
  have hq : (1 : ℚ) ≤ (c.length : ℚ) := by
    have h := List.length_pos.mpr hc
    exact_mod_cast h
  have hq0 : (c.length : ℚ) ≠ 0 := by linarith
  have hq1 : (c.length : ℚ) + 1 ≠ 0 := by linarith
  have hm : popMean (x :: c) = (x + c.sum) / ((c.length : ℚ) + 1) := by
    rw [popMean]
    simp
  have hsse : sse (x :: c)
      = (x - popMean (x :: c)) ^ 2
        + (c.map (fun y => (y - popMean (x :: c)) ^ 2)).sum := by
    rw [sse]
    simp
  rw [sampleVar, hsse, sum_map_sq_sub, hm]
  simp only [List.length_cons]
  push_cast
  field_simp
  ring

theorem popMean_cons (c : List ℚ) (x : ℚ) :
    popMean (x :: c) = (x + c.sum) / ((c.length : ℚ) + 1) := by
  rw [popMean]
  simp

theorem zcell_mono_aux (aQ bQ u u' : ℚ) (ha : 0 ≤ aQ) (hb : 0 < bQ)
    (h1 : 0 < aQ + bQ * u ^ 2) (h2 : 0 < aQ + bQ * u' ^ 2) (huu : u ≤ u') :
    ((u : ℝ)) / Real.sqrt ((aQ : ℝ) + (bQ : ℝ) * (u : ℝ) ^ 2)
      ≤ (u' : ℝ) / Real.sqrt ((aQ : ℝ) + (bQ : ℝ) * (u' : ℝ) ^ 2) := by
  apply z_mono_real
  · exact_mod_cast ha
  · exact_mod_cast hb
  · exact_mod_cast h1
  · exact_mod_cast h2
  · exact_mod_cast huu

theorem zcell_cons_eq (c : List ℚ) (x : ℚ) (hc : c ≠ []) :
    zcell (x :: c) x
      = ((x - popMean (x :: c) : ℚ) : ℝ)
        / Real.sqrt
            (((((c.map (fun y => y ^ 2)).sum - c.sum ^ 2 / (c.length : ℚ))
                / (c.length : ℚ) : ℚ) : ℝ)
              + ((((c.length : ℚ) + 1) / (c.length : ℚ) ^ 2 : ℚ) : ℝ)
                * ((x - popMean (x :: c) : ℚ) : ℝ) ^ 2) := by
  rw [zcell, sampleStd, sampleVar_cons_split c x hc]
  push_cast
  ring_nf

/-- A record's own standardized cell is monotone in its own raw value. -/
theorem zcell_cons_mono (c : List ℚ) (x x' : ℚ) (hx : x ≤ x') (hc : c ≠ [])
    (h1 : sampleVar (x :: c) ≠ 0) (h2 : sampleVar (x' :: c) ≠ 0) :
    zcell (x :: c) x ≤ zcell (x' :: c) x' := by
  have hq : (1 : ℚ) ≤ (c.length : ℚ) := by
    have h := List.length_pos.mpr hc
    exact_mod_cast h
  have hq0 : (0 : ℚ) < (c.length : ℚ) := by linarith
  have hG : 0 ≤ (c.map (fun y => y ^ 2)).sum - c.sum ^ 2 / (c.length : ℚ) := by
    rw [sub_nonneg, div_le_iff₀ hq0]
    calc c.sum ^ 2 ≤ (c.length : ℚ) * (c.map (fun y => y ^ 2)).sum := list_sq_sum_le c
      _ = (c.map (fun y => y ^ 2)).sum * (c.length : ℚ) := by ring
  have ha : 0 ≤ ((c.map (fun y => y ^ 2)).sum - c.sum ^ 2 / (c.length : ℚ)) / (c.length : ℚ) :=
    div_nonneg hG hq0.le
  have hb : 0 < ((c.length : ℚ) + 1) / (c.length : ℚ) ^ 2 := by positivity
  have hV1 : 0 < sampleVar (x :: c) := sampleVar_pos _ h1
  have hV2 : 0 < sampleVar (x' :: c) := sampleVar_pos _ h2
  rw [sampleVar_cons_split c x hc] at hV1
  rw [sampleVar_cons_split c x' hc] at hV2
  have huu : x - popMean (x :: c) ≤ x' - popMean (x' :: c) := by
    rw [popMean_cons, popMean_cons]
    have hd : (x' - (x' + c.sum) / ((c.length : ℚ) + 1))
        - (x - (x + c.sum) / ((c.length : ℚ) + 1))
        = (x' - x) * (c.length : ℚ) / ((c.length : ℚ) + 1) := by
      field_simp
      ring
    have hnn : 0 ≤ (x' - x) * (c.length : ℚ) / ((c.length : ℚ) + 1) := by
      apply div_nonneg
      · exact mul_nonneg (by linarith) hq0.le
      · linarith
    linarith [hd ▸ hnn]
  rw [zcell_cons_eq c x hc, zcell_cons_eq c x' hc]
  exact zcell_mono_aux _ _ _ _ ha hb hV1 hV2 huu

/-- Claim C7: for a negative-polarity indicator (the source negates the
standardized column: unemployment, uninsured, rent, inequality), raising one
record's raw value while holding all other values fixed does not increase
that record's standardized (sign-corrected) value, whenever the column
variance is nonzero before and after. -/
theorem c7_negative_polarity_monotone (before after : List ℚ) (x x' : ℚ)
    (hx : x ≤ x')
    (h1 : sampleVar (before ++ x :: after) ≠ 0)
    (h2 : sampleVar (before ++ x' :: after) ≠ 0) :
    (zColumn true (before ++ x' :: after)).getD before.length 0
      ≤ (zColumn true (before ++ x :: after)).getD before.length 0 := by
  have hg : ∀ y : ℚ, (zColumn true (before ++ y :: after)).getD before.length 0
      = -(zcell (before ++ y :: after) y) := by
    intro y
    rw [zColumn]
    have h := getD_map_append
      (fun v => if true then -(zcell (before ++ y :: after) v)
                else zcell (before ++ y :: after) v)
      before y after 0
    simpa using h
  rw [hg x, hg x']
  apply neg_le_neg
  have hc : before ++ after ≠ [] := by
    have hlen := two_le_length_of_sampleVar_ne_zero _ h1
    intro hnil
    rw [List.append_eq_nil] at hnil
    obtain ⟨rfl, rfl⟩ := hnil
    simp at hlen
  have hzre : ∀ y : ℚ, zcell (before ++ y :: after) y = zcell (y :: (before ++ after)) y := by
    intro y
    obtain ⟨hm, hv⟩ := stats_rearrange before after y
    rw [zcell, zcell, hm, sampleStd, sampleStd, hv]
  rw [hzre x, hzre x']
  have h1' : sampleVar (x :: (before ++ after)) ≠ 0 := by
    rw [← (stats_rearrange before after x).2]
    exact h1
  have h2' : sampleVar (x' :: (before ++ after)) ≠ 0 := by
    rw [← (stats_rearrange before after x').2]
    exact h2
  exact zcell_cons_mono (before ++ after) x x' hx hc h1' h2'

/-- Claim C7 witness: the monotonicity statement evaluated on the column
`[0, 1]` versus `[0, 2]` (raising the second record's value from 1 to 2). -/
theorem c7_negative_polarity_monotone_witness :
    (1 : ℚ) ≤ 2
    ∧ sampleVar ([0] ++ 1 :: []) ≠ 0
    ∧ sampleVar ([0] ++ 2 :: []) ≠ 0
    ∧ (zColumn true ([0] ++ 2 :: [])).getD ([0] : List ℚ).length 0
        ≤ (zColumn true ([0] ++ 1 :: [])).getD ([0] : List ℚ).length 0 :=
  ⟨by norm_num,
   by norm_num [sampleVar, sse, popMean],
   by norm_num [sampleVar, sse, popMean],
   c7_negative_polarity_monotone [0] [] 1 2 (by norm_num)
     (by norm_num [sampleVar, sse, popMean])
     (by norm_num [sampleVar, sse, popMean])⟩

end UOI
